import Mathlib

/-!
Verification of the runtime Context store in
`src/python_template/utils/context.py`.

The module stores runtime values in `contextvars.ContextVar` slots.  A
`Context` object owns one `ContextVar` whose per-branch value is either
`None` (never touched in this branch) or a `dict`.  Every mutating method
copies the current dict, mutates the copy and stores the copy back into the
`ContextVar` (copy-on-write), so no dict object is ever mutated in place.

We embed the code at three levels of detail, each faithful to the source:

* a per-branch *view* model (`CtxData`), where the value of the `ContextVar`
  in the executing branch is an optional insertion-ordered association list;
  the copy-mutate-store sequence of the source becomes a functional update of
  the view.  Used for the single-branch API claims.
* a *two-branch heap* model (`TwoBranch`), where dict objects live in an
  append-only heap and each branch's `ContextVar` slot holds a reference.
  This exposes the aliasing that copy-on-write must defeat and is used for
  the branch-isolation claim.
* an *object heap* model (`Alias`), where the collections returned by
  `keys`/`values`/`items`/`to_dict` are themselves heap objects, so that
  mutating a returned collection is expressible.  Used for the snapshot
  claim.

`ContextManager` and the module-level convenience layer are embedded with
explicit object identity: each `Context()` construction draws a fresh id from
an allocation counter, and the registry maps names to ids.
-/

namespace PyCtx

/-- Python values stored in a Context.  `pyNone` is Python's `None`; the
concrete payloads (int, string) are enough to express every claim. -/
inductive Val where
  | pyNone
  | pyInt (n : Int)
  | pyStr (s : String)
deriving DecidableEq, Repr

/-- A Python `dict[str, Any]` as an insertion-ordered association list.
CPython dicts preserve insertion order; assignment to an existing key keeps
its position, assignment to a new key appends. -/
abbrev Dict := List (String × Val)

/-- Lookup of a key, first match (`d.get(k)` / `d[k]`). -/
def assocLookup {β : Type} : List (String × β) → String → Option β
  | [], _ => Option.none
  | (k1, v1) :: rest, key => if k1 = key then some v1 else assocLookup rest key

/-- Assignment `d[k] = v`: replace in place if the key is present, else
append. -/
def assocInsert {β : Type} : List (String × β) → String → β → List (String × β)
  | [], key, v => [(key, v)]
  | (k1, v1) :: rest, key, v =>
    if k1 = key then (k1, v) :: rest else (k1, v1) :: assocInsert rest key v

/-- Deletion `del d[k]`: drop the entry for the key. -/
def assocErase {β : Type} : List (String × β) → String → List (String × β)
  | [], _ => []
  | (k1, v1) :: rest, key =>
    if k1 = key then assocErase rest key else (k1, v1) :: assocErase rest key

/-- `d.update(other)`: assign every pair of `other`, in order, into `d`. -/
def assocUpdate {β : Type} (d : List (String × β)) (kvs : List (String × β)) :
    List (String × β) :=
  kvs.foldl (fun acc pr => assocInsert acc pr.1 pr.2) d

/-- Value of a `Context`'s `ContextVar` in the executing branch: `none` is
the var's default (`None`), `some d` is a stored dict.  `_get_data` turns the
`none` case into an empty dict, which leaves the observable view unchanged,
so the per-branch view model renders each method as a function of this
state. -/
abbrev CtxData := Option Dict

/-- The branch's view of the context contents: what `_get_data` returns. -/
def view (s : CtxData) : Dict := s.getD []

namespace Context

/-- Context.set: copy the current data, assign the key, store the copy. -/
def set (s : CtxData) (key : String) (value : Val) : CtxData :=
  some (assocInsert (view s) key value)

/-- Context.get: return the value for the key, or the default. -/
def get (s : CtxData) (key : String) (default : Val) : Val :=
  (assocLookup (view s) key).getD default

/-- Context.delete: if the key is present, store a copy without it and
return True; otherwise return False.  The returned state is the branch
state after the call. -/
def delete (s : CtxData) (key : String) : Bool × CtxData :=
  if (assocLookup (view s) key).isSome then
    (true, some (assocErase (view s) key))
  else
    (false, some (view s))

/-- Context.has / `key in context`. -/
def has (s : CtxData) (key : String) : Bool :=
  (assocLookup (view s) key).isSome

/-- Context.clear: store a fresh empty dict. -/
def clear (_ : CtxData) : CtxData :=
  some []

/-- Context.keys: list of keys in insertion order. -/
def keys (s : CtxData) : List String :=
  (view s).map Prod.fst

/-- Context.values: list of values in insertion order. -/
def values (s : CtxData) : List Val :=
  (view s).map Prod.snd

/-- Context.items: list of pairs in insertion order. -/
def items (s : CtxData) : List (String × Val) :=
  view s

/-- Context.update: copy the data, apply all assignments, store the copy. -/
def update (s : CtxData) (kvs : Dict) : CtxData :=
  some (assocUpdate (view s) kvs)

/-- Context.to_dict: a copy of the current data. -/
def toDict (s : CtxData) : Dict :=
  view s

/-- Context.__getitem__: `value = self.get(key)`; raise `KeyError(key)` when
the value is `None` and the key is absent, else return the value. -/
def getitem (s : CtxData) (key : String) : Except String Val :=
  let value := get s key Val.pyNone
  if value = Val.pyNone ∧ assocLookup (view s) key = Option.none then
    Except.error key
  else
    Except.ok value

/-- Context.__delitem__: raise `KeyError(key)` when `delete` reports the key
missing, else succeed with the new state. -/
def delitem (s : CtxData) (key : String) : Except String CtxData :=
  let r := delete s key
  if r.1 then Except.ok r.2 else Except.error key

end Context

/-- Whether an `Except` result is an error (models "the call raised"). -/
def isErr {ε α : Type} : Except ε α → Bool
  | Except.error _ => true
  | Except.ok _ => false

namespace TwoBranch

/-!
Two concurrently scheduled branches A and B using the same `Context` object
(hence the same `ContextVar`).  Dict objects live in a heap addressed by
creation order; each branch's slot holds the branch's current value of the
`ContextVar` (`none` is the var's `None` default).  When a task is forked the
child inherits the parent's slot by reference, so the two slots may alias the
same heap address.  Every source method allocates a copy before storing, so
heap cells are never overwritten: the heap only grows.
-/

/-- Heap of dict objects, addressed by index. -/
abbrev Heap := List Dict

/-- Dict object stored at an address (addresses produced by the code are
always in range; the default is never reached from a written slot). -/
def heapAt (h : Heap) (a : Nat) : Dict := h.getD a []

/-- Context._get_data on one branch's slot: if the slot holds `None`,
allocate a fresh empty dict and point the slot at it; return the address of
the branch's dict together with the updated heap and slot. -/
def slotGetData (h : Heap) (p : Option Nat) : Nat × Heap × Option Nat :=
  match p with
  | some a => (a, h, some a)
  | Option.none => (h.length, h ++ [[]], some h.length)

/-- Context.set on one branch's slot: copy the branch's dict, assign the
key, allocate the copy and repoint the slot. -/
def slotSet (h : Heap) (p : Option Nat) (key : String) (v : Val) :
    Heap × Option Nat :=
  let r := slotGetData h p
  let d := heapAt r.2.1 r.1
  (r.2.1 ++ [assocInsert d key v], some r.2.1.length)

/-- Context.delete on one branch's slot: when the key is present, allocate a
copy without it and repoint; otherwise leave the slot at its dict. -/
def slotDelete (h : Heap) (p : Option Nat) (key : String) :
    Bool × Heap × Option Nat :=
  let r := slotGetData h p
  let d := heapAt r.2.1 r.1
  if (assocLookup d key).isSome then
    (true, r.2.1 ++ [assocErase d key], some r.2.1.length)
  else
    (false, r.2.1, r.2.2)

/-- Context.clear on one branch's slot: point the slot at a fresh empty
dict (the source stores `{}` without reading the old data). -/
def slotClear (h : Heap) (_ : Option Nat) : Heap × Option Nat :=
  (h ++ [[]], some h.length)

/-- Context.update on one branch's slot: copy, apply the assignments,
allocate the copy and repoint. -/
def slotUpdate (h : Heap) (p : Option Nat) (kvs : Dict) : Heap × Option Nat :=
  let r := slotGetData h p
  let d := heapAt r.2.1 r.1
  (r.2.1 ++ [assocUpdate d kvs], some r.2.1.length)

/-- A read-only method (`get`/`has`/`keys`/`values`/`items`/`to_dict`/len):
its only state effect is the lazy initialization inside `_get_data`. -/
def slotTouch (h : Heap) (p : Option Nat) : Heap × Option Nat :=
  ((slotGetData h p).2.1, (slotGetData h p).2.2)

/-- Context.get on one branch's slot: value stored for the key, or the
default. -/
def slotGetVal (h : Heap) (p : Option Nat) (key : String) (default : Val) :
    Val :=
  let r := slotGetData h p
  (assocLookup (heapAt r.2.1 r.1) key).getD default

/-- State of one Context's `ContextVar` across two branches: shared heap of
dict objects and each branch's slot. -/
structure TB where
  heap : Heap
  ptrA : Option Nat
  ptrB : Option Nat
deriving DecidableEq, Repr

/-- One call a branch can make on the Context. -/
inductive COp where
  | set (key : String) (v : Val)
  | del (key : String)
  | clear
  | update (kvs : Dict)
  | read
deriving DecidableEq, Repr

/-- Swap the two branches' slots. -/
def TB.swap (s : TB) : TB := ⟨s.heap, s.ptrB, s.ptrA⟩

/-- Branch A performs one call. -/
def stepA (s : TB) : COp → TB
  | COp.set key v =>
    let r := slotSet s.heap s.ptrA key v
    ⟨r.1, r.2, s.ptrB⟩
  | COp.del key =>
    let r := slotDelete s.heap s.ptrA key
    ⟨r.2.1, r.2.2, s.ptrB⟩
  | COp.clear =>
    let r := slotClear s.heap s.ptrA
    ⟨r.1, r.2, s.ptrB⟩
  | COp.update kvs =>
    let r := slotUpdate s.heap s.ptrA kvs
    ⟨r.1, r.2, s.ptrB⟩
  | COp.read =>
    let r := slotTouch s.heap s.ptrA
    ⟨r.1, r.2, s.ptrB⟩

/-- Branch B performs one call. -/
def stepB (s : TB) : COp → TB
  | COp.set key v =>
    let r := slotSet s.heap s.ptrB key v
    ⟨r.1, s.ptrA, r.2⟩
  | COp.del key =>
    let r := slotDelete s.heap s.ptrB key
    ⟨r.2.1, s.ptrA, r.2.2⟩
  | COp.clear =>
    let r := slotClear s.heap s.ptrB
    ⟨r.1, s.ptrA, r.2⟩
  | COp.update kvs =>
    let r := slotUpdate s.heap s.ptrB kvs
    ⟨r.1, s.ptrA, r.2⟩
  | COp.read =>
    let r := slotTouch s.heap s.ptrB
    ⟨r.1, s.ptrA, r.2⟩

/-- Branch A performs a sequence of calls. -/
def runA (s : TB) (ops : List COp) : TB := ops.foldl stepA s

/-- Branch B performs a sequence of calls. -/
def runB (s : TB) (ops : List COp) : TB := ops.foldl stepB s

/-- Context.set executed by branch A. -/
def setA (s : TB) (key : String) (v : Val) : TB := stepA s (COp.set key v)

/-- Context.set executed by branch B. -/
def setB (s : TB) (key : String) (v : Val) : TB := stepB s (COp.set key v)

/-- Context.get executed by branch A (the returned value). -/
def getA (s : TB) (key : String) (default : Val) : Val :=
  slotGetVal s.heap s.ptrA key default

/-- Context.get executed by branch B (the returned value). -/
def getB (s : TB) (key : String) (default : Val) : Val :=
  slotGetVal s.heap s.ptrB key default

end TwoBranch

namespace Alias

/-!
Heap model for the collections returned by `keys`/`values`/`items`/`to_dict`:
the backing dict and every returned collection are heap objects, so that
in-place mutation of a returned collection is expressible and its effect on
the Context observable.
-/

/-- A heap object: the backing dict of a Context, or one of the collection
objects the read methods return. -/
inductive HObj where
  | dict (d : Dict)
  | strList (l : List String)
  | valList (l : List Val)
  | pairList (l : List (String × Val))
deriving DecidableEq, Repr

/-- Dict payload of a heap object (the backing store always holds a dict). -/
def objDict : HObj → Dict
  | HObj.dict d => d
  | _ => []

/-- One branch's state: heap of objects and the Context's `ContextVar`
slot. -/
structure S8 where
  heap : List HObj
  ptr : Option Nat
deriving DecidableEq, Repr

/-- Heap object stored at an address. -/
def objAt (s : S8) (a : Nat) : HObj := s.heap.getD a (HObj.dict [])

/-- Context._get_data: address of the backing dict, allocating an empty one
when the slot still holds `None`. -/
def getData8 (s : S8) : Nat × S8 :=
  match s.ptr with
  | some a => (a, s)
  | Option.none => (s.heap.length, ⟨s.heap ++ [HObj.dict []], some s.heap.length⟩)

/-- The branch's view of the Context contents. -/
def view8 (s : S8) : Dict :=
  match s.ptr with
  | some a => objDict (s.heap.getD a (HObj.dict []))
  | Option.none => []

/-- Context.keys: allocate `list(data.keys())` as a fresh object and return
its address. -/
def keys8 (s : S8) : Nat × S8 :=
  let r := getData8 s
  let d := objDict (r.2.heap.getD r.1 (HObj.dict []))
  (r.2.heap.length, ⟨r.2.heap ++ [HObj.strList (d.map Prod.fst)], r.2.ptr⟩)

/-- Context.values: allocate `list(data.values())` as a fresh object. -/
def values8 (s : S8) : Nat × S8 :=
  let r := getData8 s
  let d := objDict (r.2.heap.getD r.1 (HObj.dict []))
  (r.2.heap.length, ⟨r.2.heap ++ [HObj.valList (d.map Prod.snd)], r.2.ptr⟩)

/-- Context.items: allocate `list(data.items())` as a fresh object. -/
def items8 (s : S8) : Nat × S8 :=
  let r := getData8 s
  let d := objDict (r.2.heap.getD r.1 (HObj.dict []))
  (r.2.heap.length, ⟨r.2.heap ++ [HObj.pairList d], r.2.ptr⟩)

/-- Context.to_dict: allocate `data.copy()` as a fresh dict object. -/
def toDict8 (s : S8) : Nat × S8 :=
  let r := getData8 s
  let d := objDict (r.2.heap.getD r.1 (HObj.dict []))
  (r.2.heap.length, ⟨r.2.heap ++ [HObj.dict d], r.2.ptr⟩)

/-- In-place mutation of the heap object at an address (models the caller
mutating a returned collection, e.g. `lst.append`, `d.clear()`). -/
def mutateObj (s : S8) (a : Nat) (o : HObj) : S8 :=
  ⟨s.heap.set a o, s.ptr⟩

/-- Well-formed branch state: a non-`None` slot references an existing heap
object (always true of states the code produces). -/
def wf8 (s : S8) : Bool :=
  match s.ptr with
  | some a => decide (a < s.heap.length)
  | Option.none => true

end Alias

/-- The error raised by `ContextManager.create_context` on a name clash.
The source raises `ValueError("Context '<name>' already exists")`, the role
the specification names DuplicateNameError. -/
inductive Err where
  | duplicateName (name : String)
deriving DecidableEq, Repr

/-- Allocation state for `Context()` constructions: a counter of object
identities and, per identity, the current branch's value of that object's
`ContextVar` (`none` until first touched, as `ContextVar` defaults to
`None`). -/
structure Store where
  nextId : Nat
  vars : List CtxData
deriving DecidableEq, Repr

/-- Construct a `Context(name=...)`: a fresh object identity whose
`ContextVar` is still at its `None` default. -/
def Store.alloc (st : Store) : Nat × Store :=
  (st.nextId, ⟨st.nextId + 1, st.vars ++ [Option.none]⟩)

/-- The branch's view of the contents of the context with a given
identity. -/
def Store.viewVar (st : Store) (i : Nat) : Dict :=
  (st.vars.getD i Option.none).getD []

/-- Store a dict into the `ContextVar` of the context with a given
identity. -/
def Store.writeVar (st : Store) (i : Nat) (d : Dict) : Store :=
  ⟨st.nextId, st.vars.set i (some d)⟩

/-- Context.set through a stored context identity. -/
def Store.ctxSet (st : Store) (i : Nat) (key : String) (v : Val) : Store :=
  st.writeVar i (assocInsert (st.viewVar i) key v)

/-- Context.update through a stored context identity. -/
def Store.ctxUpdate (st : Store) (i : Nat) (kvs : Dict) : Store :=
  st.writeVar i (assocUpdate (st.viewVar i) kvs)

/-- Context.clear through a stored context identity. -/
def Store.ctxClear (st : Store) (i : Nat) : Store :=
  st.writeVar i []

/-- Context.get through a stored context identity (returned value). -/
def Store.ctxGet (st : Store) (i : Nat) (key : String) (default : Val) : Val :=
  (assocLookup (st.viewVar i) key).getD default

/-- A `ContextManager`'s `_contexts` dict: names mapped to context object
identities. -/
abbrev Registry := List (String × Nat)

namespace ContextManager

/-- ContextManager.create_context: raise on a registered name, otherwise
construct, register and return a fresh Context.  The registry and store are
returned alongside the result, so the error branch visibly leaves both
untouched (the source raises before any mutation). -/
def create_context (r : Registry) (st : Store) (name : String) :
    Except Err Nat × Registry × Store :=
  if (assocLookup r name).isSome then
    (Except.error (Err.duplicateName name), r, st)
  else
    let a := st.alloc
    (Except.ok a.1, assocInsert r name a.1, a.2)

/-- ContextManager.get_context: the registered identity, if any; never
creates. -/
def get_context (r : Registry) (name : String) : Option Nat :=
  assocLookup r name

/-- ContextManager.get_or_create_context: return the registered identity,
constructing and registering a fresh Context first when the name is absent.
The source has no raise path, and none appears here. -/
def get_or_create_context (r : Registry) (st : Store) (name : String) :
    Nat × Registry × Store :=
  match assocLookup r name with
  | some i => (i, r, st)
  | Option.none =>
    let a := st.alloc
    (a.1, assocInsert r name a.1, a.2)

/-- ContextManager.delete_context: remove the registration if present and
report whether it existed. -/
def delete_context (r : Registry) (name : String) : Bool × Registry :=
  if (assocLookup r name).isSome then (true, assocErase r name) else (false, r)

/-- ContextManager.clear_all: drop every registration. -/
def clear_all (_ : Registry) : Registry := []

/-- ContextManager.list_contexts: registered names in insertion order. -/
def list_contexts (r : Registry) : List String := r.map Prod.fst

end ContextManager

namespace Mod

/-!
Module-level state of `context.py`: the allocation store, the lazily created
process-wide `_context_manager` and the lazily created `_global_context`.
-/

/-- The module globals: `_context_manager` (its registry) and
`_global_context` (an identity), both `None` until first use, plus the
allocation store. -/
structure ModuleState where
  store : Store
  manager : Option Registry
  globalCtx : Option Nat
deriving DecidableEq, Repr

/-- State at module import: no manager, no global context, nothing
allocated. -/
def initState : ModuleState := ⟨⟨0, []⟩, Option.none, Option.none⟩

/-- Module-level get_context: lazily construct the process-wide manager,
then `get_or_create_context(name)` on it. -/
def get_context (s : ModuleState) (name : String) : Nat × ModuleState :=
  let r := s.manager.getD []
  let res := ContextManager.get_or_create_context r s.store name
  (res.1, ⟨res.2.2, some res.2.1, s.globalCtx⟩)

/-- get_global_context: lazily construct `_global_context = Context("global")`
and return it. -/
def get_global_context (s : ModuleState) : Nat × ModuleState :=
  match s.globalCtx with
  | some g => (g, s)
  | Option.none =>
    let a := s.store.alloc
    (a.1, ⟨a.2, s.manager, some a.1⟩)

/-- set_global: `get_global_context().set(key, value)`. -/
def set_global (s : ModuleState) (key : String) (v : Val) : ModuleState :=
  let r := get_global_context s
  ⟨r.2.store.ctxSet r.1 key v, r.2.manager, r.2.globalCtx⟩

/-- get_global: `get_global_context().get(key, default)` (returned value and
resulting state). -/
def get_global (s : ModuleState) (key : String) (default : Val) :
    Val × ModuleState :=
  let r := get_global_context s
  (r.2.store.ctxGet r.1 key default, r.2)

/-- clear_global: `get_global_context().clear()`. -/
def clear_global (s : ModuleState) : ModuleState :=
  let r := get_global_context s
  ⟨r.2.store.ctxClear r.1, r.2.manager, r.2.globalCtx⟩

/-- The `finally` block of the scope helpers: when `_context_manager` is set
(it is truthy whenever not `None`), `delete_context(name)` on it. -/
def scope_cleanup (s : ModuleState) (name : String) : ModuleState :=
  match s.manager with
  | Option.none => s
  | some r => ⟨s.store, some (ContextManager.delete_context r name).2, s.globalCtx⟩

/-- context_scope: acquire the named context via module get_context, apply
the initial data when truthy (`None` and `{}` are both falsy, rendered as
`[]`), run the caller's block — an arbitrary state transformer that also
reports whether it raised — and unconditionally run the cleanup before
returning the block's outcome. -/
def context_scope (name : String) (initial : Dict)
    (body : Nat → ModuleState → ModuleState × Bool) (s : ModuleState) :
    ModuleState × Bool :=
  let r := get_context s name
  let s2 :=
    if initial = [] then r.2
    else ⟨r.2.store.ctxUpdate r.1 initial, r.2.manager, r.2.globalCtx⟩
  let res := body r.1 s2
  (scope_cleanup res.1 name, res.2)

/-- async_context_scope: identical to `context_scope` apart from the block
being awaited; the acquire/update/yield/cleanup sequence is the same code. -/
def async_context_scope (name : String) (initial : Dict)
    (body : Nat → ModuleState → ModuleState × Bool) (s : ModuleState) :
    ModuleState × Bool :=
  let r := get_context s name
  let s2 :=
    if initial = [] then r.2
    else ⟨r.2.store.ctxUpdate r.1 initial, r.2.manager, r.2.globalCtx⟩
  let res := body r.1 s2
  (scope_cleanup res.1 name, res.2)

/-- Whether the process-wide manager currently has a registration for a
name. -/
def managerHas (s : ModuleState) (name : String) : Bool :=
  match s.manager with
  | Option.none => false
  | some r => (ContextManager.get_context r name).isSome

/-- One module-level API call, for reachability of process states. -/
inductive MOp where
  | getContextOp (name : String)
  | getGlobalContextOp
  | setGlobalOp (key : String) (v : Val)
  | getGlobalOp (key : String)
  | clearGlobalOp
  | setInOp (name : String) (key : String) (v : Val)
  | updateInOp (name : String) (kvs : Dict)
  | deleteContextOp (name : String)
  | clearAllOp
deriving DecidableEq, Repr

/-- Effect of one module-level API call on the module state. -/
def step (s : ModuleState) : MOp → ModuleState
  | MOp.getContextOp name => (get_context s name).2
  | MOp.getGlobalContextOp => (get_global_context s).2
  | MOp.setGlobalOp key v => set_global s key v
  | MOp.getGlobalOp key => (get_global s key Val.pyNone).2
  | MOp.clearGlobalOp => clear_global s
  | MOp.setInOp name key v =>
    let r := get_context s name
    ⟨r.2.store.ctxSet r.1 key v, r.2.manager, r.2.globalCtx⟩
  | MOp.updateInOp name kvs =>
    let r := get_context s name
    ⟨r.2.store.ctxUpdate r.1 kvs, r.2.manager, r.2.globalCtx⟩
  | MOp.deleteContextOp name => scope_cleanup s name
  | MOp.clearAllOp =>
    match s.manager with
    | Option.none => s
    | some _ => ⟨s.store, some [], s.globalCtx⟩

/-- Run a sequence of module-level API calls. -/
def runOps (s : ModuleState) (ops : List MOp) : ModuleState :=
  ops.foldl step s

/-- Process states produced by the module-level API from a fresh import. -/
def Reachable (s : ModuleState) : Prop :=
  ∃ ops : List MOp, runOps initState ops = s

/-- Identity discipline of a module state: the lazily created singletons
refer to allocated, pairwise-distinct context objects. -/
def WF (s : ModuleState) : Prop :=
  (∀ g, s.globalCtx = some g → g < s.store.nextId)
  ∧ (∀ r, s.manager = some r → ∀ pr ∈ r, pr.2 < s.store.nextId)
  ∧ (∀ g r, s.globalCtx = some g → s.manager = some r → ∀ pr ∈ r, pr.2 ≠ g)

/-- The Context object `get_global_context()` returns at a given state. -/
abbrev gid (s : ModuleState) : Nat := (get_global_context s).1

/-- The state after `get_global_context()`. -/
abbrev probe1 (s : ModuleState) : ModuleState := (get_global_context s).2

/-- The Context object `get_context("global")` then returns. -/
abbrev cid (s : ModuleState) : Nat := (get_context (probe1 s) "global").1

/-- The state after `get_global_context()` followed by
`get_context("global")`, with both singletons materialized. -/
abbrev probe2 (s : ModuleState) : ModuleState := (get_context (probe1 s) "global").2

end Mod

/-- The ambient branch's `contextvars` mapping: for each context object
identity, the branch's value of that object's `ContextVar`. -/
abbrev CVars := List CtxData

/-- run_in_context from the source: `context = copy_context()` snapshots the
caller's ambient mapping, `context.run(func, ...)` executes `func` against
that copy and returns its result; the mutated copy is a local that is then
dropped, and the `ctx` parameter is never read.  `func` is any computation
over the `contextvars` mapping returning a value and the mapping it leaves
behind. -/
def run_in_context (amb : CVars) (ctx : Nat) (func : CVars → Val × CVars) :
    Val × CVars :=
  let copied := amb
  ((func copied).1, amb)

/-- A `func` body performing `ctx_i.set(key, v)` on the mapping it runs
under (used to observe where writes land). -/
def cvarsSet (i : Nat) (key : String) (v : Val) (cv : CVars) : CVars :=
  cv.set i (some (assocInsert ((cv.getD i Option.none).getD []) key v))

/-! Association-list lemmas shared by the claims. -/

theorem assocLookup_insert_self {β : Type} (d : List (String × β)) (k : String)
    (v : β) : assocLookup (assocInsert d k v) k = some v := by
  induction d with
  | nil => simp [assocInsert, assocLookup]
  | cons hd tl ih =>
    by_cases h : hd.1 = k
    · simp [assocInsert, assocLookup, h]
    · simp [assocInsert, assocLookup, h, ih]

theorem assocLookup_insert_ne {β : Type} (d : List (String × β)) (k k2 : String)
    (v : β) (hne : k ≠ k2) :
    assocLookup (assocInsert d k v) k2 = assocLookup d k2 := by
  induction d with
  | nil =>
    simp only [assocInsert, assocLookup]
    rw [if_neg hne]
  | cons hd tl ih =>
    by_cases h : hd.1 = k
    · have h2 : ¬ hd.1 = k2 := fun hc => hne (h.symm.trans hc)
      simp only [assocInsert, if_pos h, assocLookup, if_neg h2]
    · simp only [assocInsert, if_neg h, assocLookup]
      by_cases h2 : hd.1 = k2
      · rw [if_pos h2, if_pos h2]
      · rw [if_neg h2, if_neg h2, ih]

theorem assocLookup_erase_self {β : Type} (d : List (String × β)) (k : String) :
    assocLookup (assocErase d k) k = Option.none := by
  induction d with
  | nil => simp [assocErase, assocLookup]
  | cons hd tl ih =>
    by_cases h : hd.1 = k
    · simp [assocErase, h, ih]
    · simp [assocErase, assocLookup, h, ih]

theorem assocLookup_mem {β : Type} (d : List (String × β)) (k : String) (v : β)
    (h : assocLookup d k = some v) : (k, v) ∈ d := by
  induction d with
  | nil => simp [assocLookup] at h
  | cons hd tl ih =>
    by_cases h1 : hd.1 = k
    · simp only [assocLookup, if_pos h1, Option.some.injEq] at h
      have h2 : (k, v) = hd := by
        cases hd
        simp_all
      exact List.mem_cons.mpr (Or.inl h2)
    · simp only [assocLookup, if_neg h1] at h
      exact List.mem_cons.mpr (Or.inr (ih h))

theorem mem_assocInsert {β : Type} (d : List (String × β)) (k : String) (v : β)
    (pr : String × β) (h : pr ∈ assocInsert d k v) : pr ∈ d ∨ pr = (k, v) := by
  induction d with
  | nil =>
    simp only [assocInsert] at h
    rw [List.mem_singleton] at h
    right; exact h
  | cons hd tl ih =>
    by_cases h1 : hd.1 = k
    · simp only [assocInsert, if_pos h1] at h
      rw [List.mem_cons] at h
      rcases h with h | h
      · right; rw [h, h1]
      · left; exact List.mem_cons.mpr (Or.inr h)
    · simp only [assocInsert, if_neg h1] at h
      rw [List.mem_cons] at h
      rcases h with h | h
      · left; exact List.mem_cons.mpr (Or.inl h)
      · rcases ih h with h2 | h2
        · left; exact List.mem_cons.mpr (Or.inr h2)
        · right; exact h2

theorem mem_assocErase {β : Type} (d : List (String × β)) (k : String)
    (pr : String × β) (h : pr ∈ assocErase d k) : pr ∈ d := by
  induction d with
  | nil => simp [assocErase] at h
  | cons hd tl ih =>
    by_cases h1 : hd.1 = k
    · simp only [assocErase, if_pos h1] at h
      exact List.mem_cons.mpr (Or.inr (ih h))
    · simp only [assocErase, if_neg h1] at h
      rw [List.mem_cons] at h
      rcases h with h | h
      · exact List.mem_cons.mpr (Or.inl h)
      · exact List.mem_cons.mpr (Or.inr (ih h))

/-! List indexing helper lemmas for the heap models. -/

theorem getD_append_lt {α : Type} (l t : List α) (a : Nat) (dflt : α)
    (h : a < l.length) : (l ++ t).getD a dflt = l.getD a dflt := by
  induction l generalizing a with
  | nil => simp at h
  | cons hd tl ih =>
    cases a with
    | zero => simp [List.getD]
    | succ n =>
      simp only [List.cons_append]
      have hn : n < tl.length := by simpa using h
      simpa [List.getD] using ih n hn

theorem getD_append_self {α : Type} (l : List α) (x : α) (dflt : α) :
    (l ++ [x]).getD l.length dflt = x := by
  induction l with
  | nil => simp [List.getD]
  | cons hd tl ih => simp [List.getD, ih]

theorem getD_of_le {α : Type} (l : List α) (a : Nat) (dflt : α)
    (h : l.length ≤ a) : l.getD a dflt = dflt := by
  induction l generalizing a with
  | nil => simp [List.getD]
  | cons hd tl ih =>
    cases a with
    | zero => simp at h
    | succ n =>
      have hn : tl.length ≤ n := by simpa using h
      simpa [List.getD] using ih n hn

theorem getD_set_ne {α : Type} (l : List α) (i j : Nat) (x : α) (dflt : α)
    (h : i ≠ j) : (l.set i x).getD j dflt = l.getD j dflt := by
  induction l generalizing i j with
  | nil => simp
  | cons hd tl ih =>
    cases i with
    | zero =>
      cases j with
      | zero => exact absurd rfl h
      | succ m => simp [List.getD]
    | succ n =>
      cases j with
      | zero => simp [List.getD]
      | succ m =>
        have hn : n ≠ m := fun hc => h (by simp [hc])
        simpa [List.getD] using ih n m hn

theorem getD_append_none {α : Type} (l : List (Option α)) (j : Nat) :
    (l ++ [Option.none]).getD j Option.none = l.getD j Option.none := by
  rcases Nat.lt_or_ge j l.length with h | h
  · exact getD_append_lt l [Option.none] j Option.none h
  · rcases Nat.eq_or_lt_of_le h with h2 | h2
    · subst h2
      rw [getD_append_self, getD_of_le l l.length Option.none (Nat.le_refl _)]
    · have h3 : (l ++ [Option.none]).length ≤ j := by
        simp only [List.length_append, List.length_singleton]
        omega
      rw [getD_of_le l j Option.none h,
        getD_of_le (l ++ [Option.none]) j Option.none h3]

theorem view_some (d : Dict) : view (some d) = d := rfl

theorem view_none : view (Option.none : CtxData) = [] := rfl

/-! Claim C6: the Context set/get/delete round trip. -/

/-- C6: for every Context state, key and value, `get` after `set` returns
the stored value; `delete` returns True exactly when the key is present in
the current branch's view, the key is absent afterwards, and an immediately
following second `delete` of the key returns False. -/
theorem set_get_delete_roundtrip (s : CtxData) (k : String) (v : Val)
    (d0 : Val) :
    Context.get (Context.set s k v) k d0 = v
    ∧ ((Context.delete s k).1 = true ↔ (assocLookup (view s) k).isSome)
    ∧ assocLookup (view (Context.delete s k).2) k = Option.none
    ∧ (Context.delete (Context.delete s k).2 k).1 = false := by
  refine ⟨?_, ?_, ?_, ?_⟩
  · simp [Context.get, Context.set, view_some, assocLookup_insert_self]
  · cases hl : assocLookup (view s) k with
    | none => simp [Context.delete, hl]
    | some w => simp [Context.delete, hl]
  · cases hl : assocLookup (view s) k with
    | none => simp [Context.delete, hl, view_some]
    | some w => simp [Context.delete, hl, view_some, assocLookup_erase_self]
  · cases hl : assocLookup (view s) k with
    | none => simp [Context.delete, hl, view_some]
    | some w => simp [Context.delete, hl, view_some, assocLookup_erase_self]

/-! Claim C7: strict bracket accessors versus the permissive get. -/

/-- C7: for every Context state and key absent from the current branch's
view, bracket get raises `KeyError` and bracket delete raises `KeyError`,
while `get` returns the supplied default (in particular `None`) and, being a
total function, never raises. -/
theorem missing_key_accessors (s : CtxData) (k : String) (d0 : Val)
    (h : assocLookup (view s) k = Option.none) :
    Context.getitem s k = Except.error k
    ∧ Context.delitem s k = Except.error k
    ∧ Context.get s k d0 = d0 := by
  refine ⟨?_, ?_, ?_⟩
  · simp [Context.getitem, Context.get, h]
  · simp [Context.delitem, Context.delete, h]
  · simp [Context.get, h]

/-- C7 witness: the uninitialized Context at the key "missing". -/
theorem missing_key_accessors_witness :
    Context.getitem (Option.none : CtxData) "missing" = Except.error "missing"
    ∧ Context.delitem (Option.none : CtxData) "missing" = Except.error "missing"
    ∧ Context.get (Option.none : CtxData) "missing" (Val.pyStr "default")
      = Val.pyStr "default" :=
  missing_key_accessors Option.none "missing" (Val.pyStr "default") (by decide)

/-! Claim C10: bracket get raises exactly on genuinely absent keys. -/

/-- C10: for every Context state and key, if the key is present with stored
value `None` then bracket get returns `None` without raising, and bracket
get raises exactly when the key is absent from the current branch's view. -/
theorem getitem_none_value (s : CtxData) (k : String) :
    (assocLookup (view s) k = some Val.pyNone →
      Context.getitem s k = Except.ok Val.pyNone)
    ∧ (isErr (Context.getitem s k) = true
        ↔ assocLookup (view s) k = Option.none) := by
  constructor
  · intro h
    simp [Context.getitem, Context.get, h]
  · cases hl : assocLookup (view s) k with
    | none => simp [Context.getitem, Context.get, hl, isErr]
    | some w =>
      by_cases hw : w = Val.pyNone
      · simp [Context.getitem, Context.get, hl, hw, isErr]
      · simp [Context.getitem, Context.get, hl, hw, isErr]

/-- C10 witness: a Context holding `None` under "k" serves `ctx["k"]`
without raising, at a state where the strict accessor has something to
return. -/
theorem getitem_none_value_witness :
    Context.getitem (some [("k", Val.pyNone)] : CtxData) "k"
      = Except.ok Val.pyNone :=
  (getitem_none_value (some [("k", Val.pyNone)]) "k").1 (by decide)

/-! Claim C1: copy-on-write isolation between two concurrent branches. -/

namespace TwoBranch

/-- The second heap extends the first by a suffix (heap cells are never
overwritten by the Context methods, only appended). -/
def Ext (h1 h2 : Heap) : Prop := ∃ t, h2 = h1 ++ t

theorem Ext.rfl (h : Heap) : Ext h h := ⟨[], by simp⟩

theorem Ext.trans {h1 h2 h3 : Heap} (e1 : Ext h1 h2) (e2 : Ext h2 h3) :
    Ext h1 h3 := by
  rcases e1 with ⟨t1, ht1⟩
  rcases e2 with ⟨t2, ht2⟩
  exact ⟨t1 ++ t2, by rw [ht2, ht1, List.append_assoc]⟩

theorem ext_append (h t : Heap) : Ext h (h ++ t) := ⟨t, Eq.refl _⟩

theorem slotGetData_ext (h : Heap) (p : Option Nat) :
    Ext h (slotGetData h p).2.1 := by
  cases p with
  | some a => exact Ext.rfl h
  | none => exact ext_append h [[]]

theorem stepB_ptrA (s : TB) (op : COp) : (stepB s op).ptrA = s.ptrA := by
  cases op with
  | set key v => rfl
  | del key => rfl
  | clear => rfl
  | update kvs => rfl
  | read => rfl

theorem stepB_heap_ext (s : TB) (op : COp) : Ext s.heap (stepB s op).heap := by
  cases op with
  | set key v =>
    simp only [stepB, slotSet]
    exact Ext.trans (slotGetData_ext s.heap s.ptrB)
      (ext_append (slotGetData s.heap s.ptrB).2.1 _)
  | del key =>
    simp only [stepB, slotDelete]
    by_cases hc : (assocLookup (heapAt (slotGetData s.heap s.ptrB).2.1
        (slotGetData s.heap s.ptrB).1) key).isSome
    · simp only [hc, if_true]
      exact Ext.trans (slotGetData_ext s.heap s.ptrB)
        (ext_append (slotGetData s.heap s.ptrB).2.1 _)
    · simp only [hc, if_false]
      exact slotGetData_ext s.heap s.ptrB
  | clear =>
    simp only [stepB, slotClear]
    exact ext_append s.heap [[]]
  | update kvs =>
    simp only [stepB, slotUpdate]
    exact Ext.trans (slotGetData_ext s.heap s.ptrB)
      (ext_append (slotGetData s.heap s.ptrB).2.1 _)
  | read =>
    simp only [stepB, slotTouch]
    exact slotGetData_ext s.heap s.ptrB

/-- Everything branch A can observe through its slot is untouched by any
sequence of branch-B calls: the slot itself, the cell it references, and
that cell's being allocated. -/
theorem runB_preserve (ops : List COp) (s : TB) (a : Nat)
    (h1 : s.ptrA = some a) (h2 : a < s.heap.length) :
    (runB s ops).ptrA = some a ∧ a < (runB s ops).heap.length
    ∧ heapAt (runB s ops).heap a = heapAt s.heap a := by
  induction ops generalizing s with
  | nil => exact ⟨h1, h2, Eq.refl _⟩
  | cons op rest ih =>
    have hp : (stepB s op).ptrA = some a := (stepB_ptrA s op).trans h1
    rcases stepB_heap_ext s op with ⟨t, ht⟩
    have h2b : a < (stepB s op).heap.length := by
      rw [ht, List.length_append]
      omega
    have hAt : heapAt (stepB s op).heap a = heapAt s.heap a := by
      simp only [heapAt, ht]
      exact getD_append_lt s.heap t a [] h2
    have hrun : runB s (op :: rest) = runB (stepB s op) rest := by
      simp [runB]
    rcases ih (stepB s op) hp h2b with ⟨ra, rl, rAt⟩
    rw [hrun]
    exact ⟨ra, rl, rAt.trans hAt⟩

/-- Context.set by branch A leaves A's slot on a freshly allocated dict that
holds the written value. -/
theorem setA_spec (s : TB) (k : String) (v : Val) :
    ∃ a, (setA s k v).ptrA = some a ∧ a < (setA s k v).heap.length
    ∧ assocLookup (heapAt (setA s k v).heap a) k = some v := by
  cases hp : s.ptrA with
  | some a0 =>
    refine ⟨s.heap.length, ?_, ?_, ?_⟩
    · simp [setA, stepA, slotSet, slotGetData, hp]
    · simp [setA, stepA, slotSet, slotGetData, hp]
    · simp only [setA, stepA, slotSet, slotGetData, hp, heapAt]
      rw [getD_append_self]
      exact assocLookup_insert_self _ k v
  | none =>
    refine ⟨(s.heap ++ [[]]).length, ?_, ?_, ?_⟩
    · simp [setA, stepA, slotSet, slotGetData, hp]
    · simp [setA, stepA, slotSet, slotGetData, hp]
    · simp only [setA, stepA, slotSet, slotGetData, hp, heapAt]
      rw [getD_append_self]
      exact assocLookup_insert_self _ k v

theorem setA_ptrB (s : TB) (k : String) (v : Val) :
    (setA s k v).ptrB = s.ptrB := rfl

/-- Half of the isolation claim: after branch A writes a key, no sequence
of branch-B calls on the same Context changes what A reads back. -/
theorem isolation_A (s : TB) (k : String) (v1 d0 : Val) (bops : List COp) :
    getA (runB (setA s k v1) bops) k d0 = v1 := by
  rcases setA_spec s k v1 with ⟨a, hp, hlen, hlook⟩
  rcases runB_preserve bops (setA s k v1) a hp hlen with ⟨ra, _, rAt⟩
  simp only [getA, slotGetVal, ra, slotGetData]
  rw [rAt, hlook]
  rfl

theorem swap_swap (s : TB) : s.swap.swap = s := rfl

theorem stepB_swap (s : TB) (op : COp) : stepB s op = (stepA s.swap op).swap := by
  cases op with
  | set key v => rfl
  | del key => rfl
  | clear => rfl
  | update kvs => rfl
  | read => rfl

theorem runB_swap (s : TB) (ops : List COp) :
    runB s ops = (runA s.swap ops).swap := by
  induction ops generalizing s with
  | nil => rfl
  | cons op rest ih =>
    have h1 : runB s (op :: rest) = runB (stepB s op) rest := by simp [runB]
    have h2 : runA s.swap (op :: rest) = runA (stepA s.swap op) rest := by
      simp [runA]
    rw [h1, h2, ih (stepB s op), stepB_swap, swap_swap]

theorem setB_swap (s : TB) (k : String) (v : Val) :
    setB s k v = (setA s.swap k v).swap := stepB_swap s (COp.set k v)

theorem getB_swap (s : TB) (k : String) (d0 : Val) :
    getB s k d0 = getA s.swap k d0 := rfl

theorem runA_of_swap (s : TB) (ops : List COp) :
    (runA s ops).swap = runB s.swap ops := by
  rw [runB_swap s.swap ops, swap_swap]

end TwoBranch

/-- C1: branch isolation under copy-on-write.  For every shared state of one
Context's `ContextVar` across two concurrently scheduled branches — the two
slots may even alias the same dict object — once branch A has executed
`set(k, v1)`, every read `get(k)` by A returns `v1` no matter which calls
branch B interleaves (including `set(k, v2)`), and symmetrically B reads
`v2` after its own write no matter which calls A interleaves.  Since the
initial state and the interleaved call lists are universally quantified,
this covers every schedule and every point after each branch's write. -/
theorem branch_isolation (s : TwoBranch.TB) (k : String) (v1 v2 d0 : Val)
    (bops aops : List TwoBranch.COp) :
    TwoBranch.getA (TwoBranch.runB (TwoBranch.setA s k v1) bops) k d0 = v1
    ∧ TwoBranch.getB (TwoBranch.runA (TwoBranch.setB s k v2) aops) k d0 = v2 := by
  constructor
  · exact TwoBranch.isolation_A s k v1 d0 bops
  · rw [TwoBranch.getB_swap, TwoBranch.runA_of_swap, TwoBranch.setB_swap,
      TwoBranch.swap_swap]
    exact TwoBranch.isolation_A (TwoBranch.TB.swap s) k v2 d0 aops

/-! Claim C8: snapshot collections. -/

namespace Alias

theorem getData8_spec (s : S8) (h : wf8 s = true) :
    (getData8 s).2.ptr = some (getData8 s).1
    ∧ (getData8 s).1 < (getData8 s).2.heap.length
    ∧ objDict ((getData8 s).2.heap.getD (getData8 s).1 (HObj.dict []))
      = view8 s := by
  cases hp : s.ptr with
  | some a =>
    have hlt : a < s.heap.length := by
      simp only [wf8, hp] at h
      exact of_decide_eq_true h
    refine ⟨?_, ?_, ?_⟩
    · simp [getData8, hp]
    · simp [getData8, hp, hlt]
    · simp [getData8, view8, hp]
  | none =>
    refine ⟨?_, ?_, ?_⟩
    · simp [getData8, hp]
    · simp [getData8, hp]
    · simp only [getData8, hp, view8]
      rw [getD_append_self]
      rfl

/-- Allocating a fresh object at the end of the heap leaves the Context's
view unchanged, the object reads back as written, and overwriting the fresh
object in place still leaves the Context's view unchanged. -/
theorem fresh_alloc_spec (g2 : S8) (g1 : Nat) (hg : g2.ptr = some g1)
    (hlt : g1 < g2.heap.length) (x o : HObj) :
    objAt ⟨g2.heap ++ [x], g2.ptr⟩ g2.heap.length = x
    ∧ view8 ⟨g2.heap ++ [x], g2.ptr⟩ = view8 g2
    ∧ view8 (mutateObj ⟨g2.heap ++ [x], g2.ptr⟩ g2.heap.length o)
      = view8 g2 := by
  refine ⟨?_, ?_, ?_⟩
  · simp only [objAt]
    exact getD_append_self g2.heap x (HObj.dict [])
  · simp only [view8, hg]
    rw [getD_append_lt g2.heap [x] g1 (HObj.dict []) hlt]
  · simp only [view8, mutateObj, hg]
    have hne : g2.heap.length ≠ g1 := by omega
    rw [getD_set_ne _ _ _ _ _ hne,
      getD_append_lt g2.heap [x] g1 (HObj.dict []) hlt]

end Alias

/-- C8: keys, values, items and to_dict return freshly allocated
point-in-time copies of the current branch's view, in key insertion order
(keys are the first components of the view in order, values the second,
items the pairs, to_dict a copy of the whole mapping); none of these calls
changes the Context's contents, and overwriting any returned collection
in place leaves the Context's contents unchanged. -/
theorem snapshot_collections (s : Alias.S8) (h : Alias.wf8 s = true)
    (o : Alias.HObj) :
    (Alias.objAt (Alias.keys8 s).2 (Alias.keys8 s).1
      = Alias.HObj.strList ((Alias.view8 s).map Prod.fst)
     ∧ Alias.view8 (Alias.keys8 s).2 = Alias.view8 s
     ∧ Alias.view8 (Alias.mutateObj (Alias.keys8 s).2 (Alias.keys8 s).1 o)
       = Alias.view8 s)
    ∧ (Alias.objAt (Alias.values8 s).2 (Alias.values8 s).1
      = Alias.HObj.valList ((Alias.view8 s).map Prod.snd)
     ∧ Alias.view8 (Alias.values8 s).2 = Alias.view8 s
     ∧ Alias.view8 (Alias.mutateObj (Alias.values8 s).2 (Alias.values8 s).1 o)
       = Alias.view8 s)
    ∧ (Alias.objAt (Alias.items8 s).2 (Alias.items8 s).1
      = Alias.HObj.pairList (Alias.view8 s)
     ∧ Alias.view8 (Alias.items8 s).2 = Alias.view8 s
     ∧ Alias.view8 (Alias.mutateObj (Alias.items8 s).2 (Alias.items8 s).1 o)
       = Alias.view8 s)
    ∧ (Alias.objAt (Alias.toDict8 s).2 (Alias.toDict8 s).1
      = Alias.HObj.dict (Alias.view8 s)
     ∧ Alias.view8 (Alias.toDict8 s).2 = Alias.view8 s
     ∧ Alias.view8 (Alias.mutateObj (Alias.toDict8 s).2 (Alias.toDict8 s).1 o)
       = Alias.view8 s) := by
  rcases Alias.getData8_spec s h with ⟨hg, hlt, hd⟩
  have hwf2 : Alias.view8 (Alias.getData8 s).2 = Alias.view8 s := by
    simp only [Alias.view8, hg, hd]
  refine ⟨?_, ?_, ?_, ?_⟩
  · have hk := Alias.fresh_alloc_spec (Alias.getData8 s).2 (Alias.getData8 s).1
      hg hlt (Alias.HObj.strList ((Alias.view8 s).map Prod.fst)) o
    simp only [Alias.keys8, hd]
    exact ⟨hk.1, hk.2.1.trans hwf2, hk.2.2.trans hwf2⟩
  · have hk := Alias.fresh_alloc_spec (Alias.getData8 s).2 (Alias.getData8 s).1
      hg hlt (Alias.HObj.valList ((Alias.view8 s).map Prod.snd)) o
    simp only [Alias.values8, hd]
    exact ⟨hk.1, hk.2.1.trans hwf2, hk.2.2.trans hwf2⟩
  · have hk := Alias.fresh_alloc_spec (Alias.getData8 s).2 (Alias.getData8 s).1
      hg hlt (Alias.HObj.pairList (Alias.view8 s)) o
    simp only [Alias.items8, hd]
    exact ⟨hk.1, hk.2.1.trans hwf2, hk.2.2.trans hwf2⟩
  · have hk := Alias.fresh_alloc_spec (Alias.getData8 s).2 (Alias.getData8 s).1
      hg hlt (Alias.HObj.dict (Alias.view8 s)) o
    simp only [Alias.toDict8, hd]
    exact ⟨hk.1, hk.2.1.trans hwf2, hk.2.2.trans hwf2⟩

/-- C8 witness: a Context holding one entry, with an arbitrary overwrite of
the returned collection. -/
theorem snapshot_collections_witness :
    Alias.objAt (Alias.keys8 ⟨[Alias.HObj.dict [("a", Val.pyInt 1)]], some 0⟩).2
      (Alias.keys8 ⟨[Alias.HObj.dict [("a", Val.pyInt 1)]], some 0⟩).1
      = Alias.HObj.strList ["a"]
    ∧ Alias.view8 (Alias.mutateObj
        (Alias.keys8 ⟨[Alias.HObj.dict [("a", Val.pyInt 1)]], some 0⟩).2
        (Alias.keys8 ⟨[Alias.HObj.dict [("a", Val.pyInt 1)]], some 0⟩).1
        (Alias.HObj.strList []))
      = [("a", Val.pyInt 1)] :=
  ⟨(snapshot_collections ⟨[Alias.HObj.dict [("a", Val.pyInt 1)]], some 0⟩
      (by decide) (Alias.HObj.strList [])).1.1,
   (snapshot_collections ⟨[Alias.HObj.dict [("a", Val.pyInt 1)]], some 0⟩
      (by decide) (Alias.HObj.strList [])).1.2.2⟩

/-! Claim C4: duplicate creation fails atomically. -/

/-- C4: `create_context` on a registered name returns the duplicate-name
error — the source raises before any mutation — leaving the registry and
every context's contents exactly as they were; on an unregistered name it
allocates a fresh Context, registers it under the name, leaves all other
registrations alone and leaves every existing context's contents
unchanged. -/
theorem create_context_spec (r : Registry) (st : Store) (name n2 : String)
    (j : Nat) :
    ((ContextManager.get_context r name).isSome = true →
      ContextManager.create_context r st name
        = (Except.error (Err.duplicateName name), r, st))
    ∧ (ContextManager.get_context r name = Option.none →
      (ContextManager.create_context r st name).1 = Except.ok st.nextId
      ∧ ContextManager.get_context
          (ContextManager.create_context r st name).2.1 name = some st.nextId
      ∧ (n2 ≠ name →
          ContextManager.get_context
            (ContextManager.create_context r st name).2.1 n2
          = ContextManager.get_context r n2)
      ∧ (ContextManager.create_context r st name).2.2.vars.getD j Option.none
        = st.vars.getD j Option.none
      ∧ (ContextManager.create_context r st name).2.2.nextId
        = st.nextId + 1) := by
  constructor
  · intro h
    simp only [ContextManager.get_context] at h
    simp [ContextManager.create_context, h]
  · intro h
    simp only [ContextManager.get_context] at h
    refine ⟨?_, ?_, ?_, ?_, ?_⟩
    · simp [ContextManager.create_context, h, Store.alloc]
    · simp [ContextManager.create_context, ContextManager.get_context, h,
        Store.alloc, assocLookup_insert_self]
    · intro hn2
      simp only [ContextManager.create_context, ContextManager.get_context, h,
        Option.isSome_none, Bool.false_eq_true, if_false]
      exact assocLookup_insert_ne r name n2 st.nextId (Ne.symm hn2)
    · simp only [ContextManager.create_context, h, Option.isSome_none,
        Bool.false_eq_true, if_false, Store.alloc]
      exact getD_append_none st.vars j
    · simp [ContextManager.create_context, h, Store.alloc]

/-- C4 witness: the duplicate branch at a one-entry registry and the fresh
branch at the empty registry. -/
theorem create_context_spec_witness :
    ContextManager.create_context [("n", 0)] ⟨1, [Option.none]⟩ "n"
      = (Except.error (Err.duplicateName "n"), [("n", 0)],
         (⟨1, [Option.none]⟩ : Store))
    ∧ (ContextManager.create_context [] ⟨0, []⟩ "n").1 = Except.ok 0 :=
  ⟨(create_context_spec [("n", 0)] ⟨1, [Option.none]⟩ "n" "m" 0).1 (by decide),
   ((create_context_spec [] ⟨0, []⟩ "n" "m" 0).2 (by decide)).1⟩

/-! Claim C5: get_or_create_context is idempotent and total. -/

/-- C5: a second `get_or_create_context` call returns the same Context
identity and leaves the registry and store exactly as the first call left
them, and on an already-registered name the call returns the registered
Context unchanged — the function has no raise path (its codomain carries no
error case, matching the source, so in particular it never raises on an
existing name). -/
theorem get_or_create_idempotent (r : Registry) (st : Store) (name : String)
    (i : Nat) :
    (ContextManager.get_or_create_context
        (ContextManager.get_or_create_context r st name).2.1
        (ContextManager.get_or_create_context r st name).2.2 name
      = ContextManager.get_or_create_context r st name)
    ∧ (ContextManager.get_context r name = some i →
      ContextManager.get_or_create_context r st name = (i, r, st)) := by
  constructor
  · cases hl : assocLookup r name with
    | some j => simp [ContextManager.get_or_create_context, hl]
    | none =>
      simp [ContextManager.get_or_create_context, hl, Store.alloc,
        assocLookup_insert_self]
  · intro h
    simp only [ContextManager.get_context] at h
    simp [ContextManager.get_or_create_context, h]

/-- C5 witness: an already-registered name is returned as is. -/
theorem get_or_create_idempotent_witness :
    ContextManager.get_or_create_context [("n", 7)] ⟨8, []⟩ "n"
      = (7, [("n", 7)], (⟨8, []⟩ : Store)) :=
  (get_or_create_idempotent [("n", 7)] ⟨8, []⟩ "n" 7).2 (by decide)

/-! Claim C2: scope helpers always clean up the registration. -/

namespace Mod

theorem managerHas_scope_cleanup (s2 : ModuleState) (name : String) :
    managerHas (scope_cleanup s2 name) name = false := by
  cases hm : s2.manager with
  | none => simp [scope_cleanup, managerHas, hm]
  | some r =>
    simp only [scope_cleanup, hm, managerHas]
    by_cases hc : (assocLookup r name).isSome
    · simp [ContextManager.delete_context, hc, ContextManager.get_context,
        assocLookup_erase_self]
    · simp only [ContextManager.delete_context, hc, Bool.false_eq_true,
        if_false, ContextManager.get_context]

end Mod

/-- C2: whatever the caller's block does to the module state and however it
exits — normally or with an exception, the block being an arbitrary state
transformer that also reports whether it raised — after `context_scope(name)`
or `async_context_scope(name)` exits, the process-wide manager has no
registration for the name. -/
theorem scope_guaranteed_cleanup (name : String) (initial : Dict)
    (body : Nat → Mod.ModuleState → Mod.ModuleState × Bool)
    (s : Mod.ModuleState) :
    Mod.managerHas (Mod.context_scope name initial body s).1 name = false
    ∧ Mod.managerHas (Mod.async_context_scope name initial body s).1 name
      = false :=
  ⟨Mod.managerHas_scope_cleanup _ name, Mod.managerHas_scope_cleanup _ name⟩

/-! Claim C3: run_in_context ignores its ctx argument. -/

/-- C3 evaluation: `run_in_context` produces bitwise the same result and
final ambient state for any two `ctx` arguments — the parameter is dead —
and a `func` that performs `ctx.set("k", 1)` on the very context passed in
leaves the ambient branch's mapping unchanged after the call (the write
lands in the discarded `copy_context()` copy), while `func`'s return value
is passed through. -/
theorem run_in_context_ignores_ctx :
    (∀ (amb : CVars) (c1 c2 : Nat) (func : CVars → Val × CVars),
      run_in_context amb c1 func = run_in_context amb c2 func)
    ∧ (run_in_context [Option.none] 0
        (fun cv => (Val.pyStr "r", cvarsSet 0 "k" (Val.pyInt 1) cv))).2
      = [Option.none]
    ∧ (run_in_context [Option.none] 0
        (fun cv => (Val.pyStr "r", cvarsSet 0 "k" (Val.pyInt 1) cv))).1
      = Val.pyStr "r" :=
  ⟨fun _ _ _ _ => Eq.refl _, Eq.refl _, Eq.refl _⟩

/-! Claim C9: the convenience-layer global Context is a different object
from the manager's "global" entry.  The proof goes through the identity
invariant `Mod.WF`, shown to hold in every reachable module state. -/

namespace Mod

theorem get_or_create_cases (r : Registry) (st : Store) (name : String) :
    (∃ i, assocLookup r name = some i
      ∧ ContextManager.get_or_create_context r st name = (i, r, st))
    ∨ (assocLookup r name = Option.none
      ∧ ContextManager.get_or_create_context r st name
        = (st.nextId, assocInsert r name st.nextId,
           ⟨st.nextId + 1, st.vars ++ [Option.none]⟩)) := by
  cases hl : assocLookup r name with
  | some i =>
    left
    exact ⟨i, Eq.refl _, by simp [ContextManager.get_or_create_context, hl]⟩
  | none =>
    right
    exact ⟨Eq.refl _,
      by simp [ContextManager.get_or_create_context, hl, Store.alloc]⟩

theorem get_context_registered (s : ModuleState) (name : String) (r : Registry)
    (i : Nat) (hm : s.manager = some r) (hl : assocLookup r name = some i) :
    get_context s name = (i, s) := by
  cases s with
  | mk store manager globalCtx =>
    simp only [ModuleState.manager] at hm
    subst hm
    simp [get_context, ContextManager.get_or_create_context, hl]

theorem get_global_context_of_some (s : ModuleState) (g : Nat)
    (h : s.globalCtx = some g) : get_global_context s = (g, s) := by
  simp [get_global_context, h]

theorem mem_delete_context (r : Registry) (name : String) (pr : String × Nat)
    (h : pr ∈ (ContextManager.delete_context r name).2) : pr ∈ r := by
  by_cases hc : (assocLookup r name).isSome
  · simp only [ContextManager.delete_context, hc, if_true] at h
    exact mem_assocErase r name pr h
  · simp only [ContextManager.delete_context, hc, Bool.false_eq_true,
      if_false] at h
    exact h

theorem wf_same_ids (st1 st2 : Store) (m : Option Registry) (g : Option Nat)
    (hn : st2.nextId = st1.nextId) (h : WF ⟨st1, m, g⟩) : WF ⟨st2, m, g⟩ := by
  rcases h with ⟨h1, h2, h3⟩
  refine ⟨?_, ?_, ?_⟩
  · intro gg hgg
    rw [hn]
    exact h1 gg hgg
  · intro r hr pr hpr
    rw [hn]
    exact h2 r hr pr hpr
  · exact h3

theorem wf_get_context (s : ModuleState) (name : String) (h : WF s) :
    WF (get_context s name).2 := by
  rcases h with ⟨h1, h2, h3⟩
  rcases get_or_create_cases (s.manager.getD []) s.store name with
    ⟨i, hl, heq⟩ | ⟨hl, heq⟩
  · have hstate : (get_context s name).2
        = ⟨s.store, some (s.manager.getD []), s.globalCtx⟩ := by
      simp [get_context, heq]
    rw [hstate]
    refine ⟨?_, ?_, ?_⟩
    · intro g hg
      dsimp only at hg ⊢
      exact h1 g hg
    · intro r hr pr hpr
      dsimp only at hr ⊢
      injection hr with hr2
      rw [← hr2] at hpr
      cases hmr : s.manager with
      | none =>
        rw [hmr] at hpr
        simp at hpr
      | some r0 =>
        rw [hmr] at hpr
        simp only [Option.getD_some] at hpr
        exact h2 r0 hmr pr hpr
    · intro g r hg hr pr hpr
      dsimp only at hg hr ⊢
      injection hr with hr2
      rw [← hr2] at hpr
      cases hmr : s.manager with
      | none =>
        rw [hmr] at hpr
        simp at hpr
      | some r0 =>
        rw [hmr] at hpr
        simp only [Option.getD_some] at hpr
        exact h3 g r0 hg hmr pr hpr
  · have hstate : (get_context s name).2
        = ⟨⟨s.store.nextId + 1, s.store.vars ++ [Option.none]⟩,
           some (assocInsert (s.manager.getD []) name s.store.nextId),
           s.globalCtx⟩ := by
      simp [get_context, heq]
    rw [hstate]
    refine ⟨?_, ?_, ?_⟩
    · intro g hg
      dsimp only at hg ⊢
      have := h1 g hg
      omega
    · intro r hr pr hpr
      dsimp only at hr ⊢
      injection hr with hr2
      rw [← hr2] at hpr
      rcases mem_assocInsert _ _ _ pr hpr with hin | hnew
      · cases hmr : s.manager with
        | none =>
          rw [hmr] at hin
          simp at hin
        | some r0 =>
          rw [hmr] at hin
          simp only [Option.getD_some] at hin
          have := h2 r0 hmr pr hin
          omega
      · rw [hnew]
        dsimp only
        omega
    · intro g r hg hr pr hpr
      dsimp only at hg hr ⊢
      injection hr with hr2
      rw [← hr2] at hpr
      rcases mem_assocInsert _ _ _ pr hpr with hin | hnew
      · cases hmr : s.manager with
        | none =>
          rw [hmr] at hin
          simp at hin
        | some r0 =>
          rw [hmr] at hin
          simp only [Option.getD_some] at hin
          exact h3 g r0 hg hmr pr hin
      · rw [hnew]
        dsimp only
        have := h1 g hg
        omega

theorem wf_get_global_context (s : ModuleState) (h : WF s) :
    WF (get_global_context s).2
    ∧ (get_global_context s).2.globalCtx = some (get_global_context s).1
    ∧ (get_global_context s).2.manager = s.manager := by
  rcases h with ⟨h1, h2, h3⟩
  cases hg : s.globalCtx with
  | some g =>
    have hstate : get_global_context s = (g, s) := by
      simp [get_global_context, hg]
    rw [hstate]
    exact ⟨⟨h1, h2, h3⟩, hg, Eq.refl _⟩
  | none =>
    have hstate : get_global_context s
        = (s.store.nextId,
           ⟨⟨s.store.nextId + 1, s.store.vars ++ [Option.none]⟩, s.manager,
            some s.store.nextId⟩) := by
      simp [get_global_context, hg, Store.alloc]
    rw [hstate]
    refine ⟨⟨?_, ?_, ?_⟩, rfl, rfl⟩
    · intro gg hgg
      dsimp only at hgg ⊢
      injection hgg with hgg2
      omega
    · intro r hr pr hpr
      dsimp only at hr ⊢
      have := h2 r hr pr hpr
      omega
    · intro gg r hgg hr pr hpr
      dsimp only at hgg hr ⊢
      injection hgg with hgg2
      have := h2 r hr pr hpr
      omega

theorem wf_step (s : ModuleState) (op : MOp) (h : WF s) : WF (step s op) := by
  cases op with
  | getContextOp name => exact wf_get_context s name h
  | getGlobalContextOp => exact (wf_get_global_context s h).1
  | setGlobalOp key v =>
    exact wf_same_ids (get_global_context s).2.store _ _ _ (Eq.refl _)
      (wf_get_global_context s h).1
  | getGlobalOp key => exact (wf_get_global_context s h).1
  | clearGlobalOp =>
    exact wf_same_ids (get_global_context s).2.store _ _ _ (Eq.refl _)
      (wf_get_global_context s h).1
  | setInOp name key v =>
    exact wf_same_ids (get_context s name).2.store _ _ _ (Eq.refl _)
      (wf_get_context s name h)
  | updateInOp name kvs =>
    exact wf_same_ids (get_context s name).2.store _ _ _ (Eq.refl _)
      (wf_get_context s name h)
  | deleteContextOp name =>
    cases hm : s.manager with
    | none =>
      simp only [step, scope_cleanup, hm]
      exact h
    | some r =>
      simp only [step, scope_cleanup, hm]
      rcases h with ⟨h1, h2, h3⟩
      refine ⟨?_, ?_, ?_⟩
      · intro g hg
        exact h1 g hg
      · intro r2 hr2 pr hpr
        simp only [Option.some.injEq] at hr2
        rw [← hr2] at hpr
        exact h2 r hm pr (mem_delete_context r name pr hpr)
      · intro g r2 hg hr2 pr hpr
        simp only [Option.some.injEq] at hr2
        rw [← hr2] at hpr
        exact h3 g r hg hm pr (mem_delete_context r name pr hpr)
  | clearAllOp =>
    cases hm : s.manager with
    | none =>
      simp only [step, hm]
      exact h
    | some r =>
      simp only [step, hm]
      rcases h with ⟨h1, h2, h3⟩
      refine ⟨?_, ?_, ?_⟩
      · intro g hg
        exact h1 g hg
      · intro r2 hr2 pr hpr
        simp only [Option.some.injEq] at hr2
        rw [← hr2] at hpr
        simp at hpr
      · intro g r2 hg hr2 pr hpr
        simp only [Option.some.injEq] at hr2
        rw [← hr2] at hpr
        simp at hpr

theorem wf_initState : WF initState := by
  refine ⟨?_, ?_, ?_⟩
  · intro g hg
    simp [initState] at hg
  · intro r hr
    simp [initState] at hr
  · intro g r hg
    simp [initState] at hg

theorem wf_runOps (ops : List MOp) (s : ModuleState) (h : WF s) :
    WF (runOps s ops) := by
  induction ops generalizing s with
  | nil => exact h
  | cons op rest ih =>
    have hrun : runOps s (op :: rest) = runOps (step s op) rest := by
      simp [runOps]
    rw [hrun]
    exact ih (step s op) (wf_step s op h)

theorem wf_reachable (s : ModuleState) (h : Reachable s) : WF s := by
  rcases h with ⟨ops, hops⟩
  rw [← hops]
  exact wf_runOps ops initState wf_initState

/-- After materializing both singletons from any well-formed state, the two
objects are distinct and the manager registers the second one under
"global". -/
theorem probe_spec (s : ModuleState) (h : WF s) :
    gid s ≠ cid s
    ∧ (probe2 s).globalCtx = some (gid s)
    ∧ ∃ r2, (probe2 s).manager = some r2
        ∧ assocLookup r2 "global" = some (cid s) := by
  obtain ⟨hwf1, hg1, _⟩ := wf_get_global_context s h
  rcases hwf1 with ⟨h1, h2, h3⟩
  rcases get_or_create_cases ((probe1 s).manager.getD []) (probe1 s).store
      "global" with ⟨i, hl, heq⟩ | ⟨hl, heq⟩
  · have hmem : ("global", i) ∈ (probe1 s).manager.getD [] :=
      assocLookup_mem _ "global" i hl
    cases hmr : (probe1 s).manager with
    | none =>
      rw [hmr] at hmem
      simp at hmem
    | some r0 =>
      rw [hmr] at hmem
      have hci : cid s = i := by
        simp only [cid, get_context, heq]
      have hne : gid s ≠ i := (h3 (gid s) r0 hg1 hmr ("global", i) hmem).symm
      refine ⟨by rw [hci]; exact hne, ?_, ?_⟩
      · simp only [probe2, get_context, heq]
        exact hg1
      · refine ⟨(probe1 s).manager.getD [], ?_, ?_⟩
        · simp only [probe2, get_context, heq]
        · rw [hci]
          exact hl
  · have hci : cid s = (probe1 s).store.nextId := by
      simp only [cid, get_context, heq]
    have hglt : gid s < (probe1 s).store.nextId := h1 (gid s) hg1
    refine ⟨by rw [hci]; omega, ?_, ?_⟩
    · simp only [probe2, get_context, heq]
      exact hg1
    · refine ⟨assocInsert ((probe1 s).manager.getD []) "global"
        (probe1 s).store.nextId, ?_, ?_⟩
      · simp only [probe2, get_context, heq]
      · rw [hci]
        exact assocLookup_insert_self _ "global" _

theorem viewVar_ctxSet_ne (st : Store) (i j : Nat) (key : String) (v : Val)
    (hne : i ≠ j) :
    Store.viewVar (Store.ctxSet st i key v) j = Store.viewVar st j := by
  simp only [Store.ctxSet, Store.writeVar, Store.viewVar]
  rw [getD_set_ne st.vars i j _ Option.none hne]

end Mod

/-- C9: in every reachable process state, the Context used by the global
convenience layer (`get_global_context`, hence `set_global`/`get_global`/
`clear_global`) and the process-wide manager's entry for the name "global"
(`get_context("global")`) are distinct Context objects; consequently a
`set_global(k, v)` write leaves the view of the manager's "global" Context
unchanged, and a write through `get_context("global").set(k, v)` leaves the
value `get_global(k)` reads unchanged. -/
theorem global_layer_disjoint (s : Mod.ModuleState) (h : Mod.Reachable s)
    (k : String) (v : Val) (d0 : Val) :
    Mod.gid s ≠ Mod.cid s
    ∧ Store.viewVar (Mod.set_global (Mod.probe2 s) k v).store (Mod.cid s)
      = Store.viewVar (Mod.probe2 s).store (Mod.cid s)
    ∧ (Mod.get_global
        (Mod.step (Mod.probe2 s) (Mod.MOp.setInOp "global" k v)) k d0).1
      = (Mod.get_global (Mod.probe2 s) k d0).1 := by
  have hwf := Mod.wf_reachable s h
  obtain ⟨hne, hgc, r2, hm2, hl2⟩ := Mod.probe_spec s hwf
  have hgg2 : Mod.get_global_context (Mod.probe2 s) = (Mod.gid s, Mod.probe2 s) :=
    Mod.get_global_context_of_some (Mod.probe2 s) (Mod.gid s) hgc
  refine ⟨hne, ?_, ?_⟩
  · simp only [Mod.set_global, hgg2]
    exact Mod.viewVar_ctxSet_ne (Mod.probe2 s).store (Mod.gid s) (Mod.cid s)
      k v hne
  · have hgc2 : Mod.get_context (Mod.probe2 s) "global"
        = (Mod.cid s, Mod.probe2 s) :=
      Mod.get_context_registered (Mod.probe2 s) "global" r2 (Mod.cid s) hm2 hl2
    simp only [Mod.step, hgc2]
    have hgg3 : Mod.get_global_context
        (⟨(Mod.probe2 s).store.ctxSet (Mod.cid s) k v, (Mod.probe2 s).manager,
          (Mod.probe2 s).globalCtx⟩ : Mod.ModuleState)
        = (Mod.gid s,
           ⟨(Mod.probe2 s).store.ctxSet (Mod.cid s) k v,
             (Mod.probe2 s).manager, (Mod.probe2 s).globalCtx⟩) :=
      Mod.get_global_context_of_some _ (Mod.gid s) hgc
    simp only [Mod.get_global, hgg2, hgg3]
    simp only [Store.ctxGet]
    rw [Mod.viewVar_ctxSet_ne (Mod.probe2 s).store (Mod.cid s) (Mod.gid s)
      k v (Ne.symm hne)]

/-- C9 witness: from the freshly imported module, the two singletons get the
identities 0 and 1 and the cross-layer writes are invisible to each
other. -/
theorem global_layer_disjoint_witness :
    Mod.gid Mod.initState ≠ Mod.cid Mod.initState
    ∧ Store.viewVar
        (Mod.set_global (Mod.probe2 Mod.initState) "k" (Val.pyInt 1)).store
        (Mod.cid Mod.initState)
      = Store.viewVar (Mod.probe2 Mod.initState).store (Mod.cid Mod.initState)
    ∧ (Mod.get_global
        (Mod.step (Mod.probe2 Mod.initState)
          (Mod.MOp.setInOp "global" "k" (Val.pyInt 1))) "k" Val.pyNone).1
      = (Mod.get_global (Mod.probe2 Mod.initState) "k" Val.pyNone).1 :=
  global_layer_disjoint Mod.initState ⟨[], Eq.refl _⟩ "k" (Val.pyInt 1)
    Val.pyNone

end PyCtx
